import Mathlib

/-!
Shallow embedding of the py-evm execution-engine fragment under review:
the environment/context opcode group (`evm/logic/context.py`) and the VM
driver (`evm/vm/base.py`).  Bytes are modelled as natural numbers < 256 in
`List Nat`; 256-bit stack words as `Nat`; exceptions as an `error` field
threaded through an explicit computation state.  Helpers that the shown
source imports but that are not part of the shown files (`ceil32`,
`pad_right`, `Memory.extend`, `GasMeter.consume_gas`, `Stack.pop`,
`CodeStream.seek/read`, `force_bytes_to_address`, `constants.GAS_COPY`)
are modelled from the specification's description of them, as noted on
each definition.
-/

namespace EvmSpec

/-- Model of `ceil32` from `evm.utils.numeric`. Modelled from the spec: the next
multiple of 32 greater than or equal to `n` (spec 4.2: grow "to the next
multiple of 32 bytes ≥ start+size"). -/
def ceil32 (n : Nat) : Nat := if n % 32 = 0 then n else n + 32 - n % 32

/-- Model of `pad_right(value, to_size, b'\x00')` from `evm.utils.padding`.
Modelled from the spec: zero-padding on the right up to `n` bytes
(spec 4.5: "zero-padding on the right"); a longer value is unchanged. -/
def pad_right (b : List Nat) (n : Nat) : List Nat :=
  b ++ List.replicate (n - b.length) 0

/-- Model of `bytes.lstrip(b'\x00')`: drop leading zero bytes. -/
def lstrip0 (b : List Nat) : List Nat := b.dropWhile (fun x => x = 0)

/-- Big-endian interpretation of a byte string as an unsigned integer;
this is the integer the stack stores when a bytes value is pushed. -/
def bigEndianToInt (b : List Nat) : Nat := b.foldl (fun acc x => acc * 256 + x) 0

/-- Python slice `l[start:stop]` for nonnegative bounds: the elements at
indices `start ≤ i < stop`, empty past the end, never an error. -/
def pySlice (l : List Nat) (start stop : Nat) : List Nat := (l.take stop).drop start

/-- Byte at index `i`, reading 0 out of range (used to state properties of
written memory regions and of zero-filled sources). -/
def byteAt (l : List Nat) (i : Nat) : Nat := (l[i]?).getD 0

/-- Errors terminal to the current Computation that the modelled fragment
can raise (spec section 7). -/
inductive VMError where
  | outOfGas
  | insufficientStack
  | invalidInstruction (byte : Nat)
deriving DecidableEq

/-- The mutable per-Computation state the context opcodes touch: operand
stack (head = top), memory bytes, remaining gas, and the recorded error.
The immutable Message/code/state inputs are passed to each opcode
separately. -/
structure CompState where
  stack : List Nat
  memory : List Nat
  gasRemaining : Nat
  error : Option VMError
deriving DecidableEq

/-- Model of `GasMeter.consume_gas`. Modelled from the spec (4.3): fails with
`OutOfGas` when `amount` exceeds `remaining`, leaving `remaining`
unchanged; otherwise decrements, with no partial consumption. -/
def consume_gas (amount : Nat) (s : CompState) : CompState :=
  if s.gasRemaining < amount then { s with error := some .outOfGas }
  else { s with gasRemaining := s.gasRemaining - amount }

/-- Model of `Memory.extend(start, size)`. Modelled from the spec (4.2): if
`start+size` exceeds the current size, grow to the next multiple of 32
bytes ≥ `start+size`, zero-filling the new bytes; idempotent when already
large enough; never shrinks. -/
def memExtend (start size : Nat) (mem : List Nat) : List Nat :=
  if start + size ≤ mem.length then mem
  else mem ++ List.replicate (ceil32 (start + size) - mem.length) 0

/-- Model of `Memory.write(start, size, data)` with `len(data) = size`. Modelled
from the spec (4.2): overwrite bytes `start .. start+size` of the already
extended region. -/
def memWrite (start : Nat) (data : List Nat) (mem : List Nat) : List Nat :=
  mem.take start ++ data ++ mem.drop (start + data.length)

/-- Model of `constants.GAS_COPY` (the spec's `COPY_WORD_COST`). Modelled from the
spec: the per-word copy cost drawn from the injected gas schedule
(`constants.py` is not among the shown files); 3 is the canonical
schedule value. -/
def GAS_COPY : Nat := 3

/-- Model of `force_bytes_to_address` from `evm.utils.address`. Modelled from the
spec: coercion of a popped stack word to a 20-byte (160-bit) address. -/
def force_bytes_to_address (v : Nat) : Nat := v % 2 ^ 160

/-- The `StateAccess` interface as the context opcodes consume it
(spec section 6): balance and code per address. -/
structure StateAccess where
  get_balance : Nat → Nat
  get_code : Nat → List Nat

/-- Embedding of `calldataload` from `evm/logic/context.py`: pop an offset, take the
32-byte window of the message data from there (short past the end),
right-pad with zeros to 32 bytes, strip leading zero bytes, push. -/
def calldataload (data : List Nat) (s : CompState) : CompState :=
  match s.stack with
  | start_position :: rest =>
    let value := pySlice data start_position (start_position + 32)
    let padded_value := pad_right value 32
    let normalized_value := lstrip0 padded_value
    { s with stack := bigEndianToInt normalized_value :: rest }
  | [] => { s with error := some .insufficientStack }

/-- Embedding of `calldatacopy` from `evm/logic/context.py`, preserving the source's
statement order: pop `(mem_start, calldata_start, size)`, extend memory,
charge `word_count * GAS_COPY` (aborting on OutOfGas), then slice, pad
and write. -/
def calldatacopy (data : List Nat) (s : CompState) : CompState :=
  match s.stack with
  | mem_start :: calldata_start :: size :: rest =>
    let s1 := { s with stack := rest, memory := memExtend mem_start size s.memory }
    let word_count := ceil32 size / 32
    let s2 := consume_gas (word_count * GAS_COPY) s1
    if s2.error.isSome then s2
    else
      let value := pySlice data calldata_start (calldata_start + size)
      let padded_value := pad_right value size
      { s2 with memory := memWrite mem_start padded_value s2.memory }
  | _ => { s with error := some .insufficientStack }

/-- Embedding of `codecopy` from `evm/logic/context.py`: as `calldatacopy` but the
source is the executing code, read through `code.seek/read`, which per
spec 4.4 returns up to `size` bytes and reads short past the end. -/
def codecopy (code : List Nat) (s : CompState) : CompState :=
  match s.stack with
  | mem_start :: code_start :: size :: rest =>
    let s1 := { s with stack := rest, memory := memExtend mem_start size s.memory }
    let word_count := ceil32 size / 32
    let s2 := consume_gas (GAS_COPY * word_count) s1
    if s2.error.isSome then s2
    else
      let code_bytes := pySlice code code_start (code_start + size)
      let padded_code_bytes := pad_right code_bytes size
      { s2 with memory := memWrite mem_start padded_code_bytes s2.memory }
  | _ => { s with error := some .insufficientStack }

/-- Embedding of `extcodecopy` from `evm/logic/context.py`: pop the account address,
then `(mem_start, code_start, size)`; extend memory; charge the word
fee; then read the account's code from state, slice, pad and write. -/
def extcodecopy (st : StateAccess) (s : CompState) : CompState :=
  match s.stack with
  | account :: mem_start :: code_start :: size :: rest =>
    let addr := force_bytes_to_address account
    let s1 := { s with stack := rest, memory := memExtend mem_start size s.memory }
    let word_count := ceil32 size / 32
    let s2 := consume_gas (GAS_COPY * word_count) s1
    if s2.error.isSome then s2
    else
      let code := st.get_code addr
      let code_bytes := pySlice code code_start (code_start + size)
      let padded_code_bytes := pad_right code_bytes size
      { s2 with memory := memWrite mem_start padded_code_bytes s2.memory }
  | _ => { s with error := some .insufficientStack }

/-- Embedding of `balance` from `evm/logic/context.py`: pop an address word, read the
account balance from state (under a read-only `state_db` scope), push. -/
def balance (st : StateAccess) (s : CompState) : CompState :=
  match s.stack with
  | a :: rest =>
    { s with stack := st.get_balance (force_bytes_to_address a) :: rest }
  | [] => { s with error := some .insufficientStack }

/-- Embedding of `extcodesize` from `evm/logic/context.py`: pop an address word, read
the account code from state, push its length. -/
def extcodesize (st : StateAccess) (s : CompState) : CompState :=
  match s.stack with
  | a :: rest =>
    { s with stack := (st.get_code (force_bytes_to_address a)).length :: rest }
  | [] => { s with error := some .insufficientStack }

/-! ## VM driver (`evm/vm/base.py`) -/

/-- Exceptions escaping the `state_db` scope: an error raised by the code
inside the scope, or the release-time `assert` of a read-only
acquisition. -/
inductive ScopeExc where
  | bodyError
  | assertionFailed
deriving DecidableEq

/-- Observable outcome of one `state_db` scoped acquisition: the block
header's state root afterwards, whether the release wrote a root into
the header, and the exception (if any) propagating out of the scope. -/
structure ScopeResult where
  headerRoot : Nat
  wrote : Bool
  exc : Option ScopeExc
deriving DecidableEq

/-- Embedding of `VM.state_db` from `evm/vm/base.py`, a `@contextmanager` whose body
is modelled as a function from the state root the `State` is opened at
to the root it holds when the scope exits, paired with a flag telling
whether the body raised.  The generator has no try/finally around its
`yield`, so when the body raises, the exception thrown into the
generator propagates at once and the statements after `yield` (the
read-only `assert` and the header write-back) never run. -/
def state_db_run (read_only : Bool) (root : Nat) (body : Nat → Nat × Bool) : ScopeResult :=
  let r := body root
  if r.2 then ⟨root, false, some .bodyError⟩
  else if read_only then
    if r.1 = root then ⟨root, false, none⟩ else ⟨root, false, some .assertionFailed⟩
  else if r.1 ≠ root then ⟨r.1, true, none⟩
  else ⟨root, false, none⟩

/-- An operation in the VM's opcode table: either a mapped operation
(carrying its state transformer) or the `InvalidOpcode(byte)` sentinel
from `evm/logic/invalid.py`. -/
inductive Operation where
  | op (f : CompState → CompState)
  | invalid (byte : Nat)

/-- Running an operation on a computation state.  `InvalidOpcode` is
modelled from the spec: a sentinel operation that always fails (raises
`InvalidInstruction` for its byte). -/
def runOperation : Operation → CompState → CompState
  | .op f, s => f s
  | .invalid b, s => { s with error := some (.invalidInstruction b) }

/-- Embedding of `VM.get_opcode_fn` from `evm/vm/base.py`: look the byte up in the
version's opcode table; on `KeyError` return `InvalidOpcode(opcode)`. -/
def get_opcode_fn (opcodes : Nat → Option Operation) (opcode : Nat) : Operation :=
  match opcodes opcode with
  | some fn => fn
  | none => .invalid opcode

/-- A block header as `get_ancestor_hash` consumes it: number, parent
hash (a key into the header store), own hash (as bytes). -/
structure BlockHeaderM where
  block_number : Int
  parent_hash : Nat
  hash : List Nat

/-- The parent-walk loop of `VM.get_ancestor_hash`, totalised with fuel:
the source's `while h.block_number != block_number` loop follows
`parent_hash` links; a depth within range needs at most 256 steps, and
exhausted fuel (unreachable on a well-formed chain) yields empty bytes. -/
def walkToNumber (lookup : Nat → BlockHeaderM) (target : Int) : Nat → BlockHeaderM → List Nat
  | 0, h => if h.block_number = target then h.hash else []
  | fuel + 1, h =>
    if h.block_number = target then h.hash
    else walkToNumber lookup target fuel (lookup h.parent_hash)

/-- Embedding of `VM.get_ancestor_hash` from `evm/vm/base.py`: compute the depth of
the requested ancestor; outside `1 ≤ depth ≤ 256` return `b''`;
otherwise walk parent hashes from the current header's parent until the
requested number is reached. -/
def get_ancestor_hash (lookup : Nat → BlockHeaderM) (blockNumber : Int)
    (parentHash : Nat) (target : Int) : List Nat :=
  let ancestor_depth := blockNumber - target
  if ancestor_depth > 256 ∨ ancestor_depth < 1 then []
  else walkToNumber lookup target 256 (lookup parentHash)

/-! ## Helper lemmas -/

theorem ceil32_ge (n : Nat) : n ≤ ceil32 n := by
  unfold ceil32; split <;> omega

theorem ceil32_div32 (n : Nat) : ceil32 n / 32 = (n + 31) / 32 := by
  unfold ceil32; split <;> omega

theorem length_pad_right (b : List Nat) (n : Nat) :
    (pad_right b n).length = max b.length n := by
  simp [pad_right]; omega

theorem length_pySlice (l : List Nat) (start stop : Nat) :
    (pySlice l start stop).length = min stop l.length - start := by
  simp [pySlice]

theorem byteAt_out_of_range (l : List Nat) (i : Nat) (h : l.length ≤ i) :
    byteAt l i = 0 := by
  simp [byteAt, List.getElem?_eq_none h]

theorem le_length_memExtend (start size : Nat) (mem : List Nat) :
    start + size ≤ (memExtend start size mem).length := by
  unfold memExtend
  split
  · assumption
  · have := ceil32_ge (start + size)
    simp only [List.length_append, List.length_replicate]
    omega

theorem length_le_memExtend (start size : Nat) (mem : List Nat) :
    mem.length ≤ (memExtend start size mem).length := by
  unfold memExtend
  split
  · exact Nat.le_refl _
  · simp only [List.length_append, List.length_replicate]
    omega

theorem byteAt_memExtend (start size : Nat) (mem : List Nat) (i : Nat)
    (h : i < mem.length) : byteAt (memExtend start size mem) i = byteAt mem i := by
  unfold memExtend byteAt
  split
  · rfl
  · rw [List.getElem?_append]
    simp [h]

theorem length_memWrite (start : Nat) (data mem : List Nat)
    (h : start + data.length ≤ mem.length) :
    (memWrite start data mem).length = mem.length := by
  simp [memWrite]; omega

theorem byteAt_memWrite (start : Nat) (data mem : List Nat) (j : Nat)
    (h : start + data.length ≤ mem.length) (hj : j < data.length) :
    byteAt (memWrite start data mem) (start + j) = byteAt data j := by
  unfold memWrite byteAt
  have htake : (mem.take start).length = start := by
    simp; omega
  simp only [List.getElem?_append, List.length_append, htake]
  have h1 : start + j < start + data.length := by omega
  have hge : ¬ (start + j < start) := by omega
  simp [h1, hge, hj]

theorem byteAt_pad_slice (src : List Nat) (c sz j : Nat) (hj : j < sz) :
    byteAt (pad_right (pySlice src c (c + sz)) sz) j = byteAt src (c + j) := by
  unfold byteAt pad_right pySlice
  have hlen : ((src.take (c + sz)).drop c).length = min (c + sz) src.length - c := by
    simp
  rw [List.getElem?_append]
  by_cases hcase : j < ((src.take (c + sz)).drop c).length
  · simp only [hcase, if_true]
    rw [List.getElem?_drop, List.getElem?_take]
    have : c + j < c + sz := by omega
    simp [this]
  · simp only [hcase, if_false]
    rw [List.getElem?_replicate]
    have hsrc : src.length ≤ c + j := by omega
    have hrep : j - ((src.take (c + sz)).drop c).length <
        sz - ((src.take (c + sz)).drop c).length := by
      have hslice : ((src.take (c + sz)).drop c).length ≤ j := by omega
      have : ((src.take (c + sz)).drop c).length < sz := by omega
      omega
    simp only [hrep, if_true, Option.getD_some]
    rw [List.getElem?_eq_none hsrc]
    rfl

theorem byteAt_slice_src (src : List Nat) (c sz m j : Nat) (mem : List Nat)
    (hj : j < sz) (h : m + sz ≤ mem.length) :
    byteAt (memWrite m (pad_right (pySlice src c (c + sz)) sz) mem) (m + j) =
      byteAt src (c + j) := by
  have hplen : (pad_right (pySlice src c (c + sz)) sz).length = sz := by
    rw [length_pad_right, length_pySlice]
    omega
  rw [byteAt_memWrite m _ mem j (by rw [hplen]; exact h) (by rw [hplen]; exact hj)]
  exact byteAt_pad_slice src c sz j hj

theorem bigEndianToInt_cons_zero (xs : List Nat) :
    bigEndianToInt (0 :: xs) = bigEndianToInt xs := by
  simp [bigEndianToInt]

theorem bigEndianToInt_lstrip0 (b : List Nat) :
    bigEndianToInt (lstrip0 b) = bigEndianToInt b := by
  induction b with
  | nil => rfl
  | cons x xs ih =>
    by_cases hx : x = 0
    · subst hx
      rw [bigEndianToInt_cons_zero]
      rw [← ih]
      simp [lstrip0, List.dropWhile]
    · simp [lstrip0, List.dropWhile, hx]

theorem pySlice_of_le (l : List Nat) (start stop : Nat) (h : l.length ≤ start) :
    pySlice l start stop = [] := by
  unfold pySlice
  apply List.drop_eq_nil_of_le
  simp
  omega

/-- Failure path of `calldatacopy`: insufficient gas for the word-count
fee leaves the stack popped and the memory extended, gas unchanged,
error `OutOfGas`; the copy is not performed. -/
theorem calldatacopy_fail (data stk mem : List Nat) (gas : Nat) (err : Option VMError)
    (m c sz : Nat) (rest : List Nat) (hs : stk = m :: c :: sz :: rest)
    (hg : gas < ceil32 sz / 32 * GAS_COPY) :
    calldatacopy data ⟨stk, mem, gas, err⟩ =
      ⟨rest, memExtend m sz mem, gas, some .outOfGas⟩ := by
  subst hs
  simp [calldatacopy, consume_gas, hg]

/-- Success path of `calldatacopy`: sufficient gas yields the popped
stack, the extended-then-written memory, and gas decremented by the fee. -/
theorem calldatacopy_ok (data stk mem : List Nat) (gas : Nat)
    (m c sz : Nat) (rest : List Nat) (hs : stk = m :: c :: sz :: rest)
    (hg : ceil32 sz / 32 * GAS_COPY ≤ gas) :
    calldatacopy data ⟨stk, mem, gas, none⟩ =
      ⟨rest,
       memWrite m (pad_right (pySlice data c (c + sz)) sz) (memExtend m sz mem),
       gas - ceil32 sz / 32 * GAS_COPY, none⟩ := by
  subst hs
  have hng : ¬ (gas < ceil32 sz / 32 * GAS_COPY) := by omega
  simp [calldatacopy, consume_gas, hng]

/-- Failure path of `codecopy`, as for `calldatacopy`. -/
theorem codecopy_fail (code stk mem : List Nat) (gas : Nat) (err : Option VMError)
    (m c sz : Nat) (rest : List Nat) (hs : stk = m :: c :: sz :: rest)
    (hg : gas < ceil32 sz / 32 * GAS_COPY) :
    codecopy code ⟨stk, mem, gas, err⟩ =
      ⟨rest, memExtend m sz mem, gas, some .outOfGas⟩ := by
  subst hs
  have hg2 : gas < GAS_COPY * (ceil32 sz / 32) := by
    have := Nat.mul_comm (ceil32 sz / 32) GAS_COPY
    omega
  simp [codecopy, consume_gas, hg2]

/-- Success path of `codecopy`, as for `calldatacopy`. -/
theorem codecopy_ok (code stk mem : List Nat) (gas : Nat)
    (m c sz : Nat) (rest : List Nat) (hs : stk = m :: c :: sz :: rest)
    (hg : ceil32 sz / 32 * GAS_COPY ≤ gas) :
    codecopy code ⟨stk, mem, gas, none⟩ =
      ⟨rest,
       memWrite m (pad_right (pySlice code c (c + sz)) sz) (memExtend m sz mem),
       gas - GAS_COPY * (ceil32 sz / 32), none⟩ := by
  subst hs
  have hng : ¬ (gas < GAS_COPY * (ceil32 sz / 32)) := by
    have := Nat.mul_comm (ceil32 sz / 32) GAS_COPY
    omega
  simp [codecopy, consume_gas, hng]

/-- Failure path of `extcodecopy`, as for `calldatacopy` (the account
address is popped first; the code is only read after the charge). -/
theorem extcodecopy_fail (st : StateAccess) (stk mem : List Nat) (gas : Nat)
    (err : Option VMError) (a m c sz : Nat) (rest : List Nat)
    (hs : stk = a :: m :: c :: sz :: rest)
    (hg : gas < ceil32 sz / 32 * GAS_COPY) :
    extcodecopy st ⟨stk, mem, gas, err⟩ =
      ⟨rest, memExtend m sz mem, gas, some .outOfGas⟩ := by
  subst hs
  have hg2 : gas < GAS_COPY * (ceil32 sz / 32) := by
    have := Nat.mul_comm (ceil32 sz / 32) GAS_COPY
    omega
  simp [extcodecopy, consume_gas, hg2]

/-- Success path of `extcodecopy`: the source buffer is the account's
code as read from state. -/
theorem extcodecopy_ok (st : StateAccess) (stk mem : List Nat) (gas : Nat)
    (a m c sz : Nat) (rest : List Nat) (hs : stk = a :: m :: c :: sz :: rest)
    (hg : ceil32 sz / 32 * GAS_COPY ≤ gas) :
    extcodecopy st ⟨stk, mem, gas, none⟩ =
      ⟨rest,
       memWrite m
         (pad_right (pySlice (st.get_code (force_bytes_to_address a)) c (c + sz)) sz)
         (memExtend m sz mem),
       gas - GAS_COPY * (ceil32 sz / 32), none⟩ := by
  subst hs
  have hng : ¬ (gas < GAS_COPY * (ceil32 sz / 32)) := by
    have := Nat.mul_comm (ceil32 sz / 32) GAS_COPY
    omega
  simp [extcodecopy, consume_gas, hng]

theorem copy_result_bytes (src : List Nat) (m c sz : Nat) (mem : List Nat)
    (j : Nat) (hj : j < sz) :
    byteAt (memWrite m (pad_right (pySlice src c (c + sz)) sz) (memExtend m sz mem))
        (m + j) = byteAt src (c + j) :=
  byteAt_slice_src src c sz m j (memExtend m sz mem) hj (le_length_memExtend m sz mem)

theorem le_length_copy_result (src : List Nat) (m c sz : Nat) (mem : List Nat) :
    m + sz ≤
      (memWrite m (pad_right (pySlice src c (c + sz)) sz) (memExtend m sz mem)).length := by
  have hplen : (pad_right (pySlice src c (c + sz)) sz).length = sz := by
    rw [length_pad_right, length_pySlice]
    omega
  rw [length_memWrite _ _ _ (by rw [hplen]; exact le_length_memExtend m sz mem)]
  exact le_length_memExtend m sz mem

/-! ## Claims -/

/-- C1 counterexample: with 0 gas remaining, `calldatacopy` of size 4
fails with `OutOfGas`, yet afterwards the memory has grown from 0 to 32
bytes — the word-count fee was not charged strictly before the memory
extension, and a partial extension is observable after the failed
charge. -/
theorem C1_counterexample :
    (calldatacopy [1, 2, 3, 4] ⟨[0, 0, 4], [], 0, none⟩).error = some VMError.outOfGas ∧
    (calldatacopy [1, 2, 3, 4] ⟨[0, 0, 4], [], 0, none⟩).memory.length = 32 ∧
    ¬ (calldatacopy [1, 2, 3, 4] ⟨[0, 0, 4], [], 0, none⟩).memory = ([] : List Nat) := by
  decide

/-- C1 (amended): for every copy opcode (CALLDATACOPY, CODECOPY,
EXTCODECOPY) the memory extension is performed before the word-count fee
is charged, and the copy strictly after the charge; consequently, if the
charge fails with OutOfGas, nothing has been written (the pre-existing
memory contents are unchanged, any newly extended bytes are zero-filled)
and the gas is unchanged, but the memory may already have been extended
to cover `memOffset + size`. -/
theorem C1_amended_extend_before_charge
    (data code : List Nat) (st : StateAccess)
    (mem mem2 : List Nat) (gas gas2 : Nat) (err err2 : Option VMError)
    (m c sz a : Nat) (rest rest2 : List Nat)
    (hg : gas < ceil32 sz / 32 * GAS_COPY)
    (hg2 : gas2 < ceil32 sz / 32 * GAS_COPY) :
    calldatacopy data ⟨m :: c :: sz :: rest, mem, gas, err⟩ =
      ⟨rest, memExtend m sz mem, gas, some .outOfGas⟩ ∧
    codecopy code ⟨m :: c :: sz :: rest, mem, gas, err⟩ =
      ⟨rest, memExtend m sz mem, gas, some .outOfGas⟩ ∧
    extcodecopy st ⟨a :: m :: c :: sz :: rest2, mem2, gas2, err2⟩ =
      ⟨rest2, memExtend m sz mem2, gas2, some .outOfGas⟩ ∧
    (∀ i, i < mem.length → byteAt (memExtend m sz mem) i = byteAt mem i) :=
  ⟨calldatacopy_fail data _ mem gas err m c sz rest rfl hg,
   codecopy_fail code _ mem gas err m c sz rest rfl hg,
   extcodecopy_fail st _ mem2 gas2 err2 a m c sz rest2 rfl hg2,
   fun i hi => byteAt_memExtend m sz mem i hi⟩

/-- C1 witness: concrete instance of the amended claim. -/
theorem C1_amended_witness :
    (0 : Nat) < ceil32 4 / 32 * GAS_COPY ∧
    calldatacopy [1, 2, 3, 4] ⟨[0, 0, 4], [5, 6], 0, none⟩ =
      ⟨[], memExtend 0 4 [5, 6], 0, some .outOfGas⟩ ∧
    extcodecopy ⟨fun _ => 0, fun _ => [9]⟩ ⟨[7, 0, 0, 4], [], 0, none⟩ =
      ⟨[], memExtend 0 4 [], 0, some .outOfGas⟩ ∧
    byteAt (memExtend 0 4 [5, 6]) 1 = byteAt [5, 6] 1 := by
  obtain ⟨h1, h2, h3, h4⟩ :=
    C1_amended_extend_before_charge [1, 2, 3, 4] [8] ⟨fun _ => 0, fun _ => [9]⟩
      [5, 6] [] 0 0 none none 0 0 4 7 [] [] (by decide) (by decide)
  exact ⟨by decide, h1, h3, h4 1 (by decide)⟩

/-- C2: for any call data `D` and popped offset `o`, CALLDATALOAD pushes
0 when `len(D) ≤ o`, and when `o < len(D) < o + 32` it pushes the
big-endian integer of `D[o:]` zero-padded on the right to 32 bytes. -/
theorem C2_calldataload_padding (D : List Nat) (o gas : Nat)
    (rest mem : List Nat) (err : Option VMError) :
    (D.length ≤ o →
      (calldataload D ⟨o :: rest, mem, gas, err⟩).stack = 0 :: rest) ∧
    (o < D.length → D.length < o + 32 →
      (calldataload D ⟨o :: rest, mem, gas, err⟩).stack =
        bigEndianToInt (pad_right (D.drop o) 32) :: rest) := by
  constructor
  · intro h
    have hsl : pySlice D o (o + 32) = [] := pySlice_of_le D o (o + 32) h
    simp only [calldataload, hsl]
    have hz : bigEndianToInt (lstrip0 (pad_right [] 32)) = 0 := by decide
    rw [hz]
  · intro h1 h2
    have hsl : pySlice D o (o + 32) = D.drop o := by
      unfold pySlice
      rw [List.take_of_length_le (by omega)]
    simp only [calldataload, hsl]
    rw [bigEndianToInt_lstrip0]

/-- C2 witness: both padding laws at concrete inputs. -/
theorem C2_calldataload_padding_witness :
    (calldataload [1, 2] ⟨[5], [], 0, none⟩).stack = [0] ∧
    (calldataload [1, 2] ⟨[1], [], 0, none⟩).stack =
      bigEndianToInt (pad_right ([1, 2].drop 1) 32) :: [] :=
  ⟨(C2_calldataload_padding [1, 2] 5 0 [] [] none).1 (by decide),
   (C2_calldataload_padding [1, 2] 1 0 [] [] none).2 (by decide) (by decide)⟩

/-- C3 counterexample: CALLDATALOAD with popped offset 0 on the one-byte
input `0x01` does not push 1; the window is padded on the right, so the
pushed integer is `0x01` followed by 31 zero bytes, i.e. `256 ^ 31`. -/
theorem C3_counterexample :
    (calldataload [1] ⟨[0], [], 0, none⟩).stack ≠ [1] ∧
    (calldataload [1] ⟨[0], [], 0, none⟩).stack = [256 ^ 31] := by
  constructor
  · decide
  · decide

/-- C3 (amended): CALLDATALOAD's pushed value is the 32-byte window
right-zero-padded then trimmed of leading zero bytes (the trim does not
change the big-endian integer value); executing it with popped offset 0
on the one-byte input `0x01` pushes `256 ^ 31` (the word `0x0100...00`),
not 1. -/
theorem C3_amended_right_pad_then_trim (D : List Nat) (o gas : Nat)
    (rest mem : List Nat) (err : Option VMError) :
    (calldataload D ⟨o :: rest, mem, gas, err⟩).stack =
      bigEndianToInt (lstrip0 (pad_right (pySlice D o (o + 32)) 32)) :: rest ∧
    bigEndianToInt (lstrip0 (pad_right (pySlice D o (o + 32)) 32)) =
      bigEndianToInt (pad_right (pySlice D o (o + 32)) 32) ∧
    (calldataload [1] ⟨[0], [], 0, none⟩).stack = [256 ^ 31] :=
  ⟨by simp only [calldataload], bigEndianToInt_lstrip0 _, by decide⟩

/-- C4: for CODECOPY, CALLDATACOPY and EXTCODECOPY with popped arguments
`(memOffset, srcOffset, size)`, every written memory byte whose source
index is in range equals the source byte, every written byte whose source
index is at or beyond the end of the source is exactly zero, and
out-of-range offsets cause no error. -/
theorem C4_copy_zero_fill (data code : List Nat) (st : StateAccess)
    (mem mem2 : List Nat) (gas gas2 : Nat)
    (m c sz a : Nat) (rest rest2 : List Nat)
    (hg : ceil32 sz / 32 * GAS_COPY ≤ gas)
    (hg2 : ceil32 sz / 32 * GAS_COPY ≤ gas2) :
    ((calldatacopy data ⟨m :: c :: sz :: rest, mem, gas, none⟩).error = none ∧
     ∀ j, j < sz →
       byteAt (calldatacopy data ⟨m :: c :: sz :: rest, mem, gas, none⟩).memory (m + j) =
         byteAt data (c + j) ∧
       (data.length ≤ c + j →
         byteAt (calldatacopy data ⟨m :: c :: sz :: rest, mem, gas, none⟩).memory (m + j)
           = 0)) ∧
    ((codecopy code ⟨m :: c :: sz :: rest, mem, gas, none⟩).error = none ∧
     ∀ j, j < sz →
       byteAt (codecopy code ⟨m :: c :: sz :: rest, mem, gas, none⟩).memory (m + j) =
         byteAt code (c + j) ∧
       (code.length ≤ c + j →
         byteAt (codecopy code ⟨m :: c :: sz :: rest, mem, gas, none⟩).memory (m + j)
           = 0)) ∧
    ((extcodecopy st ⟨a :: m :: c :: sz :: rest2, mem2, gas2, none⟩).error = none ∧
     ∀ j, j < sz →
       byteAt (extcodecopy st ⟨a :: m :: c :: sz :: rest2, mem2, gas2, none⟩).memory
           (m + j) =
         byteAt (st.get_code (force_bytes_to_address a)) (c + j) ∧
       ((st.get_code (force_bytes_to_address a)).length ≤ c + j →
         byteAt (extcodecopy st ⟨a :: m :: c :: sz :: rest2, mem2, gas2, none⟩).memory
             (m + j) = 0)) := by
  rw [calldatacopy_ok data _ mem gas m c sz rest rfl hg,
      codecopy_ok code _ mem gas m c sz rest rfl hg,
      extcodecopy_ok st _ mem2 gas2 a m c sz rest2 rfl hg2]
  refine ⟨⟨rfl, fun j hj => ?_⟩, ⟨rfl, fun j hj => ?_⟩, ⟨rfl, fun j hj => ?_⟩⟩ <;>
    refine ⟨copy_result_bytes _ m c sz _ j hj, fun hlen => ?_⟩ <;>
    rw [copy_result_bytes _ m c sz _ j hj] <;>
    exact byteAt_out_of_range _ _ hlen

/-- C4 witness: CALLDATACOPY of 4 bytes from a 2-byte source at source
offset 0: the first two written bytes are the source bytes, the last two
are zero; no error. -/
theorem C4_copy_zero_fill_witness :
    (calldatacopy [7, 8] ⟨[0, 0, 4], [], 6, none⟩).error = none ∧
    byteAt (calldatacopy [7, 8] ⟨[0, 0, 4], [], 6, none⟩).memory 1 = byteAt [7, 8] 1 ∧
    byteAt (calldatacopy [7, 8] ⟨[0, 0, 4], [], 6, none⟩).memory 3 = 0 := by
  obtain ⟨⟨he, hb⟩, -, -⟩ :=
    C4_copy_zero_fill [7, 8] [] ⟨fun _ => 0, fun _ => []⟩ [] [] 6 6 0 0 4 0 [] []
      (by decide) (by decide)
  exact ⟨he, (hb 1 (by decide)).1, (hb 3 (by decide)).2 (by decide)⟩

/-- C5: CALLDATACOPY and CODECOPY pop exactly three stack items
`(memOffset, srcOffset, size)` (top first), extend memory to cover
`memOffset + size`, and charge exactly `ceil(size/32) * GAS_COPY` for
the copy. -/
theorem C5_pop_extend_charge (data code mem : List Nat) (gas m c sz : Nat)
    (rest : List Nat) (hg : (sz + 31) / 32 * GAS_COPY ≤ gas) :
    ((calldatacopy data ⟨m :: c :: sz :: rest, mem, gas, none⟩).stack = rest ∧
     m + sz ≤ (calldatacopy data ⟨m :: c :: sz :: rest, mem, gas, none⟩).memory.length ∧
     (calldatacopy data ⟨m :: c :: sz :: rest, mem, gas, none⟩).gasRemaining =
       gas - (sz + 31) / 32 * GAS_COPY ∧
     (calldatacopy data ⟨m :: c :: sz :: rest, mem, gas, none⟩).error = none) ∧
    ((codecopy code ⟨m :: c :: sz :: rest, mem, gas, none⟩).stack = rest ∧
     m + sz ≤ (codecopy code ⟨m :: c :: sz :: rest, mem, gas, none⟩).memory.length ∧
     (codecopy code ⟨m :: c :: sz :: rest, mem, gas, none⟩).gasRemaining =
       gas - (sz + 31) / 32 * GAS_COPY ∧
     (codecopy code ⟨m :: c :: sz :: rest, mem, gas, none⟩).error = none) := by
  have hceil : ceil32 sz / 32 = (sz + 31) / 32 := ceil32_div32 sz
  have hg' : ceil32 sz / 32 * GAS_COPY ≤ gas := by rw [hceil]; exact hg
  rw [calldatacopy_ok data _ mem gas m c sz rest rfl hg',
      codecopy_ok code _ mem gas m c sz rest rfl hg']
  refine ⟨⟨rfl, le_length_copy_result _ m c sz mem, by rw [hceil], rfl⟩,
          ⟨rfl, le_length_copy_result _ m c sz mem, ?_, rfl⟩⟩
  show gas - GAS_COPY * (ceil32 sz / 32) = gas - (sz + 31) / 32 * GAS_COPY
  rw [Nat.mul_comm, hceil]

/-- C5 witness: a copy of size 4 pops its three arguments, covers
`memOffset + size = 4` bytes of memory, and is charged exactly
`1 * GAS_COPY` (10 gas drops to 7). -/
theorem C5_pop_extend_charge_witness :
    (4 + 31) / 32 * GAS_COPY = 1 * GAS_COPY ∧
    (calldatacopy [1, 2, 3, 4] ⟨[0, 0, 4], [], 10, none⟩).stack = [] ∧
    0 + 4 ≤ (calldatacopy [1, 2, 3, 4] ⟨[0, 0, 4], [], 10, none⟩).memory.length ∧
    (calldatacopy [1, 2, 3, 4] ⟨[0, 0, 4], [], 10, none⟩).gasRemaining =
      10 - (4 + 31) / 32 * GAS_COPY ∧
    (codecopy [1, 2, 3, 4] ⟨[0, 0, 4], [], 10, none⟩).gasRemaining =
      10 - (4 + 31) / 32 * GAS_COPY := by
  obtain ⟨⟨h1, h2, h3, h4⟩, -, -, h5, -⟩ :=
    C5_pop_extend_charge [1, 2, 3, 4] [1, 2, 3, 4] [] 10 0 0 4 [] (by decide)
  exact ⟨by decide, h1, h2, h3, h5⟩

/-- C6: for every acquisition of the `state_db` scope whose body
completes normally: a read-only acquisition asserts on release that the
root equals the header root recorded at acquisition (assertion failure
if mutated) and leaves the header unchanged; a mutable acquisition
writes the new root into the block header if and only if the root
changed. -/
theorem C6_state_db_release (root : Nat) (body : Nat → Nat × Bool)
    (hnr : (body root).2 = false) :
    ((body root).1 = root → state_db_run true root body = ⟨root, false, none⟩) ∧
    ((body root).1 ≠ root →
      state_db_run true root body = ⟨root, false, some .assertionFailed⟩) ∧
    ((state_db_run false root body).headerRoot = (body root).1 ∧
     (state_db_run false root body).exc = none ∧
     ((state_db_run false root body).wrote = true ↔ (body root).1 ≠ root)) := by
  refine ⟨fun he => ?_, fun hne => ?_, ?_⟩
  · simp [state_db_run, hnr, he]
  · simp [state_db_run, hnr, hne]
  · by_cases he : (body root).1 = root
    · simp [state_db_run, hnr, he]
    · simp [state_db_run, hnr, he]

/-- C6 witness: a body that increments the root trips the read-only
assertion; under a mutable acquisition it is written back. -/
theorem C6_state_db_release_witness :
    state_db_run true 0 (fun r => (r + 1, false)) = ⟨0, false, some .assertionFailed⟩ ∧
    (state_db_run false 0 (fun r => (r + 1, false))).headerRoot = 1 ∧
    (state_db_run false 0 (fun r => (r + 1, false))).wrote = true := by
  obtain ⟨-, h2, h3, -, h5⟩ := C6_state_db_release 0 (fun r => (r + 1, false)) rfl
  exact ⟨h2 (by decide), h3, h5.mpr (by decide)⟩

/-- C7 counterexample: under a mutable acquisition whose body changes
the root to 1 and then raises, the scope exits with the header root
still 0 and nothing written — the release action did not run on the
error path. -/
theorem C7_counterexample :
    state_db_run false 0 (fun r => (r + 1, true)) = ⟨0, false, some .bodyError⟩ ∧
    (state_db_run false 0 (fun r => (r + 1, true))).wrote = false ∧
    ((fun r => (r + 1, true)) 0).1 ≠
      (state_db_run false 0 (fun r => (r + 1, true))).headerRoot := by
  exact ⟨rfl, rfl, by decide⟩

/-- C7 (amended): the `state_db` scope performs its release action (the
read-only validation or the root write-back) only on normal exit; when
the code inside the scope raises, the exception propagates out of the
scope immediately, the header is left unchanged and nothing is written,
because the generator has no try/finally around its yield. -/
theorem C7_amended_no_release_on_error (read_only : Bool) (root : Nat)
    (body : Nat → Nat × Bool) (hr : (body root).2 = true) :
    state_db_run read_only root body = ⟨root, false, some .bodyError⟩ := by
  simp [state_db_run, hr]

/-- C7 witness: concrete instance of the amended claim. -/
theorem C7_amended_witness :
    state_db_run false 5 (fun r => (r + 1, true)) = ⟨5, false, some .bodyError⟩ :=
  C7_amended_no_release_on_error false 5 (fun r => (r + 1, true)) rfl

/-- C8: opcode dispatch is total: for a byte mapped in the opcode table
`get_opcode_fn` returns the mapped operation, and for an unmapped byte
it returns the `InvalidOpcode(byte)` sentinel, which always fails with
`InvalidInstruction(byte)`; no lookup error is ever raised. -/
theorem C8_dispatch_total (opcodes : Nat → Option Operation) (b : Nat) :
    (∀ fn, opcodes b = some fn → get_opcode_fn opcodes b = fn) ∧
    (opcodes b = none →
      get_opcode_fn opcodes b = .invalid b ∧
      ∀ s, (runOperation (get_opcode_fn opcodes b) s).error =
        some (.invalidInstruction b)) := by
  constructor
  · intro fn hfn
    simp [get_opcode_fn, hfn]
  · intro hnone
    have hinv : get_opcode_fn opcodes b = .invalid b := by
      simp [get_opcode_fn, hnone]
    exact ⟨hinv, fun s => by rw [hinv]; rfl⟩

/-- C8 witness: dispatching the unmapped byte `0xAB` on an empty table
yields the sentinel, and running it records `InvalidInstruction(0xAB)`. -/
theorem C8_dispatch_total_witness :
    get_opcode_fn (fun _ => none) 171 = .invalid 171 ∧
    (runOperation (get_opcode_fn (fun _ => none) 171) ⟨[], [], 0, none⟩).error =
      some (.invalidInstruction 171) := by
  obtain ⟨-, h2⟩ := C8_dispatch_total (fun _ => none) 171
  obtain ⟨hi, hr⟩ := h2 rfl
  exact ⟨hi, hr ⟨[], [], 0, none⟩⟩

/-- C9: BALANCE pushes exactly `StateAccess.get_balance(address)` and
EXTCODESIZE pushes exactly the length of `StateAccess.get_code(address)`;
when a non-existent account yields zero balance and empty code, both
push 0; neither opcode records an error on account absence. -/
theorem C9_balance_extcodesize (st : StateAccess) (a b gas gas2 : Nat)
    (rest rest2 mem mem2 : List Nat) (err err2 : Option VMError) :
    ((balance st ⟨a :: rest, mem, gas, err⟩).stack =
       st.get_balance (force_bytes_to_address a) :: rest ∧
     (balance st ⟨a :: rest, mem, gas, err⟩).error = err ∧
     (st.get_balance (force_bytes_to_address a) = 0 →
       (balance st ⟨a :: rest, mem, gas, err⟩).stack = 0 :: rest)) ∧
    ((extcodesize st ⟨b :: rest2, mem2, gas2, err2⟩).stack =
       (st.get_code (force_bytes_to_address b)).length :: rest2 ∧
     (extcodesize st ⟨b :: rest2, mem2, gas2, err2⟩).error = err2 ∧
     (st.get_code (force_bytes_to_address b) = [] →
       (extcodesize st ⟨b :: rest2, mem2, gas2, err2⟩).stack = 0 :: rest2)) := by
  refine ⟨⟨rfl, rfl, fun h0 => ?_⟩, ⟨rfl, rfl, fun h0 => ?_⟩⟩
  · simp [balance, h0]
  · simp [extcodesize, h0]

/-- C9 witness: against a state in which every account is absent (zero
balance, empty code), BALANCE and EXTCODESIZE both push 0 and record no
error. -/
theorem C9_balance_extcodesize_witness :
    (balance ⟨fun _ => 0, fun _ => []⟩ ⟨[42], [], 0, none⟩).stack = [0] ∧
    (balance ⟨fun _ => 0, fun _ => []⟩ ⟨[42], [], 0, none⟩).error = none ∧
    (extcodesize ⟨fun _ => 0, fun _ => []⟩ ⟨[42], [], 0, none⟩).stack = [0] ∧
    (extcodesize ⟨fun _ => 0, fun _ => []⟩ ⟨[42], [], 0, none⟩).error = none := by
  obtain ⟨⟨-, he1, hb⟩, -, he2, hc⟩ :=
    C9_balance_extcodesize ⟨fun _ => 0, fun _ => []⟩ 42 42 0 0 [] [] [] [] none none
  exact ⟨hb rfl, he1, hc rfl, he2⟩

/-- C10: for every requested ancestor number, if the depth (current
block number minus requested number) is greater than 256 or less than 1,
`get_ancestor_hash` returns the empty byte string, with no header lookup
and no error. -/
theorem C10_ancestor_depth_guard (lookup : Nat → BlockHeaderM)
    (blockNumber : Int) (parentHash : Nat) (target : Int)
    (h : 256 < blockNumber - target ∨ blockNumber - target < 1) :
    get_ancestor_hash lookup blockNumber parentHash target = [] := by
  unfold get_ancestor_hash
  rcases h with h | h
  · simp [h]
  · simp [h]

/-- C10 witness: requesting the current block's own number (depth 0) and
a block 300 deep both yield empty bytes. -/
theorem C10_ancestor_depth_guard_witness :
    get_ancestor_hash (fun _ => ⟨0, 0, [7]⟩) 5 0 5 = [] ∧
    get_ancestor_hash (fun _ => ⟨0, 0, [7]⟩) 300 0 0 = [] :=
  ⟨C10_ancestor_depth_guard (fun _ => ⟨0, 0, [7]⟩) 5 0 5 (Or.inr (by decide)),
   C10_ancestor_depth_guard (fun _ => ⟨0, 0, [7]⟩) 300 0 0 (Or.inl (by decide))⟩

end EvmSpec
